import Mathlib

/-!
Verification of the loft core: the perimeter-walk loft algorithm
(`PerimeterWalkAlgorithm.ts`) and the segment orchestrator
(`LoftableModel.ts`). 2D/3D points are modelled with real coordinates;
`THREE.Vector2.distanceTo` is the Euclidean distance. The walk's
`while` loop is modelled as a well-founded recursion on the remaining
cursor distance.
-/

namespace Loft

/-- A 2D point, modelling `THREE.Vector2` as used by the loft core. -/
structure Vec2 where
  x : ℝ
  y : ℝ

/-- A 3D point, modelling `THREE.Vector3` as used by the loft core. -/
structure Vec3 where
  x : ℝ
  y : ℝ
  z : ℝ

/-- Euclidean distance, modelling `THREE.Vector2.distanceTo`. -/
noncomputable def distanceTo (p q : Vec2) : ℝ :=
  Real.sqrt ((q.x - p.x) ^ 2 + (q.y - p.y) ^ 2)

/-- Shoelace sum of a closed loop (twice the signed area; only its sign
is used).  Modelled from the spec: `ensureCCW` "computes the signed area
via the shoelace sum" (the implementation in `util/Geometry` is not part
of the provided sources). -/
noncomputable def shoelace (vs : List Vec2) : ℝ :=
  ∑ i ∈ Finset.range vs.length,
    ((vs.getD i ⟨0, 0⟩).x * (vs.getD ((i + 1) % vs.length) ⟨0, 0⟩).y -
     (vs.getD ((i + 1) % vs.length) ⟨0, 0⟩).x * (vs.getD i ⟨0, 0⟩).y)

/-- Winding normalizer.  Modelled from the spec: `ensureCCW(loop)`
computes the signed area via the shoelace sum; if negative (clockwise)
it returns the vertex sequence reversed, otherwise unchanged; loops with
fewer than 3 points pass through unchanged (the implementation in
`util/Geometry` is not part of the provided sources). -/
noncomputable def ensureWindingCCW (vs : List Vec2) : List Vec2 :=
  if vs.length < 3 then vs
  else if shoelace vs < 0 then vs.reverse
  else vs

/-- A closed loop of 2D vertices with precomputed perimeter parameters,
modelling the fields of the `ParameterizedLoop` class. -/
structure ParameterizedLoop where
  vertices : List Vec2
  params : List ℝ
  totalLength : ℝ

namespace ParameterizedLoop

/-- Length of edge `i → (i+1) % n` of a vertex list. -/
noncomputable def edgeLen (vs : List Vec2) (i : ℕ) : ℝ :=
  distanceTo (vs.getD i ⟨0, 0⟩) (vs.getD ((i + 1) % vs.length) ⟨0, 0⟩)

/-- Cumulative distances pushed by the constructor loop: it starts from
`[0]` and, after adding edge `i`, pushes the running total whenever
`i < n - 1`; so entry `k` is the sum of the first `k` edge lengths, and
there are `n` entries (a single `[0]` when the loop is empty). -/
noncomputable def cumDistances (vs : List Vec2) : List ℝ :=
  (List.range (max vs.length 1)).map fun k =>
    ∑ i ∈ Finset.range k, edgeLen vs i

/-- Constructor of `ParameterizedLoop`: normalizes winding to CCW,
computes cumulative distances, the total perimeter length, and the
normalized parameters (`0` everywhere when the total is `0`). -/
noncomputable def ofVertices (input : List Vec2) : ParameterizedLoop :=
  let vertices := ensureWindingCCW input
  let total := ∑ i ∈ Finset.range vertices.length, edgeLen vertices i
  { vertices := vertices
    params := (cumDistances vertices).map fun d =>
      if 0 < total then d / total else 0
    totalLength := total }

/-- Number of vertices in the loop (`get count()`). -/
def count (L : ParameterizedLoop) : ℕ := L.vertices.length

/-- Parameter of vertex `i`, with the wrap sentinel `param(n) = 1.0`. -/
noncomputable def param (L : ParameterizedLoop) (i : ℕ) : ℝ :=
  if i ≥ L.count then 1 else L.params.getD i 0

/-- Vertex at index `i`, with wrap-around (`vertices[i % count]`). -/
def vertex (L : ParameterizedLoop) (i : ℕ) : Vec2 :=
  L.vertices.getD (i % L.count) ⟨0, 0⟩

/-- Interpolate a point on edge `i → i+1` at parameter `t`. -/
noncomputable def interpolate (L : ParameterizedLoop) (i : ℕ) (t : ℝ) : Vec2 :=
  let v0 := L.vertex i
  let v1 := L.vertex (i + 1)
  let t0 := L.param i
  let t1 := L.param (i + 1)
  let span := if t1 > t0 then t1 - t0 else (1 - t0) + t1
  if span = 0 then v0
  else
    let u := (t - t0) / span
    ⟨v0.x + u * (v1.x - v0.x), v0.y + u * (v1.y - v0.y)⟩

end ParameterizedLoop

/-- A mesh face: an ordered list of 3D vertices (`LoftFace`). -/
structure LoftFace where
  vertices : List Vec3

/-- Result of one loft algorithm invocation (`LoftResult`). -/
structure LoftResult where
  faces : List LoftFace

/-- Builds 3D faces from 2D points at two fixed heights (`FaceBuilder`).
The mutable `faces` array is modelled as a list carried in the state. -/
structure FaceBuilder where
  heightA : ℝ
  heightB : ℝ
  faces : List LoftFace

namespace FaceBuilder

/-- Convert a 2D point on loop A to 3D at `heightA` (`toPoint3D_A`). -/
def toPoint3D_A (st : FaceBuilder) (p : Vec2) : Vec3 :=
  ⟨p.x, p.y, st.heightA⟩

/-- Convert a 2D point on loop B to 3D at `heightB` (`toPoint3D_B`). -/
def toPoint3D_B (st : FaceBuilder) (p : Vec2) : Vec3 :=
  ⟨p.x, p.y, st.heightB⟩

/-- Append a quad face with vertex order `[a0, a1, b1, b0]`
(`addQuad`); `this.faces.push(...)` appends at the end of the list. -/
def addQuad (st : FaceBuilder) (a0 a1 b0 b1 : Vec2) : FaceBuilder :=
  { st with
    faces := st.faces ++
      [⟨[st.toPoint3D_A a0, st.toPoint3D_A a1,
         st.toPoint3D_B b1, st.toPoint3D_B b0]⟩] }

/-- Append an already-3D triangle verbatim (`addTriangle`). -/
def addTriangle (st : FaceBuilder) (p0 p1 p2 : Vec3) : FaceBuilder :=
  { st with faces := st.faces ++ [⟨[p0, p1, p2]⟩] }

/-- Return the accumulated face list (`getFaces`). -/
def getFaces (st : FaceBuilder) : List LoftFace := st.faces

end FaceBuilder

/-- Tie-break epsilon of the walk (`const EPS = 1e-9`). -/
noncomputable def EPS : ℝ := 1 / 1000000000

open ParameterizedLoop in
/-- Body of `walkPerimeters`: the `while (iA < nA || iB < nB)` loop with
cursors `iA`, `iB`, modelled as a recursion that terminates because every
iteration increments `iA`, `iB`, or both, while they stay bounded by the
vertex counts. -/
noncomputable def walkAux (loopA loopB : ParameterizedLoop)
    (iA iB : ℕ) (builder : FaceBuilder) : FaceBuilder :=
  if hloop : iA < loopA.count ∨ iB < loopB.count then
    let tNextA := loopA.param (iA + 1)
    let tNextB := loopB.param (iB + 1)
    let a0 := loopA.vertex iA
    let b0 := loopB.vertex iB
    if hA : iA ≥ loopA.count then
      -- Loop A is done, only advance B
      let b1 := loopB.vertex (iB + 1)
      let a1 := loopA.interpolate (loopA.count - 1) tNextB
      walkAux loopA loopB iA (iB + 1) (builder.addQuad a0 a1 b0 b1)
    else if hB : iB ≥ loopB.count then
      -- Loop B is done, only advance A
      let a1 := loopA.vertex (iA + 1)
      let b1 := loopB.interpolate (loopB.count - 1) tNextA
      walkAux loopA loopB (iA + 1) iB (builder.addQuad a0 a1 b0 b1)
    else if |tNextA - tNextB| < EPS then
      -- Both reach their next vertex at the same parameter
      let a1 := loopA.vertex (iA + 1)
      let b1 := loopB.vertex (iB + 1)
      walkAux loopA loopB (iA + 1) (iB + 1) (builder.addQuad a0 a1 b0 b1)
    else if tNextA < tNextB then
      -- A's next vertex comes before B's
      let a1 := loopA.vertex (iA + 1)
      let b1 := loopB.interpolate iB tNextA
      walkAux loopA loopB (iA + 1) iB (builder.addQuad a0 a1 b0 b1)
    else
      -- B's next vertex comes before A's
      let a1 := loopA.interpolate iA tNextB
      let b1 := loopB.vertex (iB + 1)
      walkAux loopA loopB iA (iB + 1) (builder.addQuad a0 a1 b0 b1)
  else builder
termination_by (loopA.count - iA) + (loopB.count - iB)
decreasing_by all_goals omega

/-- Walk two loops simultaneously, creating faces as we go
(`walkPerimeters`); returns the final builder state. -/
noncomputable def walkPerimeters (loopA loopB : ParameterizedLoop)
    (builder : FaceBuilder) : FaceBuilder :=
  walkAux loopA loopB 0 0 builder

/-- Loop of `findClosestVertexIndex`, carrying the current index and the
best index/distance so far; `Infinity` is modelled as `⊤` in
`WithTop ℝ`. -/
noncomputable def closestAux (target : Vec2) : List Vec2 → ℕ → ℕ →
    WithTop ℝ → ℕ
  | [], _, bestIndex, _ => bestIndex
  | p :: rest, i, bestIndex, bestDist =>
    if (distanceTo target p : WithTop ℝ) < bestDist then
      closestAux target rest (i + 1) i (distanceTo target p)
    else
      closestAux target rest (i + 1) bestIndex bestDist

/-- Find the vertex in `loopB` that is closest to vertex 0 of `loopA`
(`findClosestVertexIndex`). -/
noncomputable def findClosestVertexIndex (loopA loopB : List Vec2) : ℕ :=
  closestAux (loopA.getD 0 ⟨0, 0⟩) loopB 0 0 ⊤

/-- Rotate an array so that the element at `startIndex` becomes index 0
(`rotateArray`). -/
def rotateArray {α : Type} (arr : List α) (startIndex : ℕ) : List α :=
  if startIndex = 0 ∨ arr.length = 0 then arr
  else arr.drop startIndex ++ arr.take startIndex

/-- Align `loopB`'s starting vertex to be closest to `loopA`'s starting
vertex (`alignLoopStarts`). -/
noncomputable def alignLoopStarts (loopA loopB : List Vec2) : List Vec2 :=
  rotateArray loopB (findClosestVertexIndex loopA loopB)

/-- Perimeter Walk Loft Algorithm entry point
(`perimeterWalkAlgorithm`). -/
noncomputable def perimeterWalkAlgorithm (loopA : List Vec2) (heightA : ℝ)
    (loopB : List Vec2) (heightB : ℝ) : LoftResult :=
  if loopA.length < 3 ∨ loopB.length < 3 then ⟨[]⟩
  else
    let normalizedA := ensureWindingCCW loopA
    let normalizedB := ensureWindingCCW loopB
    let alignedB := alignLoopStarts normalizedA normalizedB
    let paramA := ParameterizedLoop.ofVertices normalizedA
    let paramB := ParameterizedLoop.ofVertices alignedB
    let builder : FaceBuilder := ⟨heightA, heightB, []⟩
    ⟨(walkPerimeters paramA paramB builder).getFaces⟩

/-- A sketch plane: a closed 2D loop at a height.  Models the data
carried by `SketchPlane` (`getSketch().getVertices()` and
`getHeight()`); the Three.js visualization state is irrelevant to the
loft core and omitted. -/
structure SketchPlane where
  vertices : List Vec2
  height : ℝ

/-- Type of a registered loft algorithm:
`(loopA, heightA, loopB, heightB) → LoftResult`. -/
def LoftAlgorithm : Type :=
  List Vec2 → ℝ → List Vec2 → ℝ → LoftResult

/-- Algorithm registry.  Modelled from the spec: a process-wide
name → algorithm lookup (`getLoftAlgorithm(name) -> fn | absent`); the
`LoftAlgorithm.ts` module is not part of the provided sources, so the
registry contents are a parameter. -/
def Registry : Type := String → Option LoftAlgorithm

/-- A single floor-to-floor segment (`LoftSegment`). -/
structure LoftSegment where
  bottomPlane : SketchPlane
  topPlane : SketchPlane
  faces : List LoftFace

/-- A loftable model: segments between adjacent planes
(`LoftableModel`). -/
structure LoftableModel where
  segments : List LoftSegment

namespace LoftableModel

/-- Height comparison used by
`[...planes].sort((a, b) => a.getHeight() - b.getHeight())`. -/
noncomputable def heightLE (a b : SketchPlane) : Bool :=
  decide (a.height ≤ b.height)

/-- Sort planes ascending by height.  JavaScript `Array.prototype.sort`
is required to be stable (ES2019), so it is modelled as a stable merge
sort. -/
noncomputable def sortPlanes (planes : List SketchPlane) : List SketchPlane :=
  planes.mergeSort heightLE

/-- Build segments pairwise using the given algorithm
(`LoftableModel.buildSegments`): for each `i` from `0` to
`planes.length - 2`, run the algorithm on planes `i` and `i + 1`. -/
noncomputable def buildSegments (planes : List SketchPlane)
    (algorithm : LoftAlgorithm) : LoftableModel :=
  ⟨(List.range (planes.length - 1)).map fun i =>
    let bottomPlane := planes.getD i ⟨[], 0⟩
    let topPlane := planes.getD (i + 1) ⟨[], 0⟩
    ⟨bottomPlane, topPlane,
     (algorithm bottomPlane.vertices bottomPlane.height
       topPlane.vertices topPlane.height).faces⟩⟩

/-- Create a `LoftableModel` from an array of sketch planes
(`LoftableModel.fromPlanes`).  The registry and the configured default
name (`LOFT.DEFAULT_ALGORITHM`, whose defining module is not part of the
provided sources) are passed as parameters; `console.warn` output is
captured in the returned string list, and `throw new Error(...)` is
modelled as `Except.error`. -/
noncomputable def fromPlanes (reg : Registry) (defaultAlgorithm : Option String)
    (planes : List SketchPlane) (algorithmName : Option String) :
    Except String (List String × LoftableModel) :=
  if planes.length < 2 then .ok ([], ⟨[]⟩)
  else
    let sortedPlanes := sortPlanes planes
    let name := algorithmName.getD (defaultAlgorithm.getD "perimeter-walk")
    match reg name with
    | some algorithm => .ok ([], buildSegments sortedPlanes algorithm)
    | none =>
      match reg "perimeter-walk" with
      | some fallback =>
        .ok (["Unknown loft algorithm: " ++ name ++ ", using perimeter-walk"],
          buildSegments sortedPlanes fallback)
      | none => .error "No loft algorithms registered"

/-- Get all planes in order (`getPlanes`): the first segment's bottom
plane followed by every segment's top plane. -/
def getPlanes (m : LoftableModel) : List SketchPlane :=
  match m.segments with
  | [] => []
  | s :: _ => s.bottomPlane :: m.segments.map (·.topPlane)

end LoftableModel

/-- Concrete 3-4-5 right triangle, used as the test loop in concrete
evaluations (all its edge lengths are rational). -/
noncomputable def tri : List Vec2 := [⟨0, 0⟩, ⟨3, 0⟩, ⟨0, 4⟩]

/-! ### Basic lemmas -/

theorem distanceTo_nonneg (p q : Vec2) : 0 ≤ distanceTo p q :=
  Real.sqrt_nonneg _

theorem distanceTo_self (p : Vec2) : distanceTo p p = 0 := by
  simp [distanceTo]

/-- Evaluation rule for concrete distances with rational values. -/
theorem distanceTo_eval (p q : Vec2) (d : ℝ) (hd : 0 ≤ d)
    (h : (q.x - p.x) ^ 2 + (q.y - p.y) ^ 2 = d ^ 2) :
    distanceTo p q = d := by
  rw [distanceTo, h, Real.sqrt_sq hd]

@[simp] theorem ensureWindingCCW_length (vs : List Vec2) :
    (ensureWindingCCW vs).length = vs.length := by
  unfold ensureWindingCCW
  split <;> [rfl; split <;> simp]

@[simp] theorem ensureWindingCCW_mem (v : Vec2) (vs : List Vec2) :
    v ∈ ensureWindingCCW vs ↔ v ∈ vs := by
  unfold ensureWindingCCW
  split <;> [rfl; split <;> simp]

/-! ### Lemmas about the face builder and the walk -/

namespace FaceBuilder

@[simp] theorem addQuad_heightA (st : FaceBuilder) (a0 a1 b0 b1 : Vec2) :
    (st.addQuad a0 a1 b0 b1).heightA = st.heightA := rfl

@[simp] theorem addQuad_heightB (st : FaceBuilder) (a0 a1 b0 b1 : Vec2) :
    (st.addQuad a0 a1 b0 b1).heightB = st.heightB := rfl

theorem addQuad_faces (st : FaceBuilder) (a0 a1 b0 b1 : Vec2) :
    (st.addQuad a0 a1 b0 b1).faces = st.faces ++
      [⟨[⟨a0.x, a0.y, st.heightA⟩, ⟨a1.x, a1.y, st.heightA⟩,
         ⟨b1.x, b1.y, st.heightB⟩, ⟨b0.x, b0.y, st.heightB⟩]⟩] := rfl

@[simp] theorem addQuad_faces_length (st : FaceBuilder) (a0 a1 b0 b1 : Vec2) :
    (st.addQuad a0 a1 b0 b1).faces.length = st.faces.length + 1 := by
  simp [addQuad_faces]

end FaceBuilder

/-- Terminal case of the walk: both cursors reached their bounds. -/
theorem walkAux_done {loopA loopB : ParameterizedLoop} {iA iB : ℕ}
    {b : FaceBuilder} (h : ¬(iA < loopA.count ∨ iB < loopB.count)) :
    walkAux loopA loopB iA iB b = b := by
  rw [walkAux, dif_neg h]

/-- Step of the walk in the "loop A exhausted" branch: only B advances,
`a1` is held on A's final edge at B's next parameter. -/
theorem walkAux_stepAExhausted {loopA loopB : ParameterizedLoop} {iA iB : ℕ}
    (b : FaceBuilder) (hB : iB < loopB.count) (hA : iA ≥ loopA.count) :
    walkAux loopA loopB iA iB b =
      walkAux loopA loopB iA (iB + 1)
        (b.addQuad (loopA.vertex iA)
          (loopA.interpolate (loopA.count - 1) (loopB.param (iB + 1)))
          (loopB.vertex iB) (loopB.vertex (iB + 1))) := by
  rw [walkAux, dif_pos (Or.inr hB), dif_pos hA]

/-- Step of the walk in the "loop B exhausted" branch: only A advances,
`b1` is held on B's final edge at A's next parameter. -/
theorem walkAux_stepBExhausted {loopA loopB : ParameterizedLoop} {iA iB : ℕ}
    (b : FaceBuilder) (hA : iA < loopA.count) (hB : iB ≥ loopB.count) :
    walkAux loopA loopB iA iB b =
      walkAux loopA loopB (iA + 1) iB
        (b.addQuad (loopA.vertex iA) (loopA.vertex (iA + 1))
          (loopB.vertex iB)
          (loopB.interpolate (loopB.count - 1) (loopA.param (iA + 1)))) := by
  rw [walkAux, dif_pos (Or.inl hA), dif_neg (by omega), dif_pos hB]

/-- Step of the walk in the tie branch: both cursors advance, no
interpolation. -/
theorem walkAux_stepTie {loopA loopB : ParameterizedLoop} {iA iB : ℕ}
    (b : FaceBuilder) (hA : iA < loopA.count) (hB : iB < loopB.count)
    (h : |loopA.param (iA + 1) - loopB.param (iB + 1)| < EPS) :
    walkAux loopA loopB iA iB b =
      walkAux loopA loopB (iA + 1) (iB + 1)
        (b.addQuad (loopA.vertex iA) (loopA.vertex (iA + 1))
          (loopB.vertex iB) (loopB.vertex (iB + 1))) := by
  rw [walkAux, dif_pos (Or.inl hA), dif_neg (by omega), dif_neg (by omega),
    if_pos h]

/-- Step of the walk in the "A leads" branch: A advances, `b1` is
interpolated on B's current edge. -/
theorem walkAux_stepALeads {loopA loopB : ParameterizedLoop} {iA iB : ℕ}
    (b : FaceBuilder) (hA : iA < loopA.count) (hB : iB < loopB.count)
    (hne : ¬|loopA.param (iA + 1) - loopB.param (iB + 1)| < EPS)
    (hlt : loopA.param (iA + 1) < loopB.param (iB + 1)) :
    walkAux loopA loopB iA iB b =
      walkAux loopA loopB (iA + 1) iB
        (b.addQuad (loopA.vertex iA) (loopA.vertex (iA + 1))
          (loopB.vertex iB)
          (loopB.interpolate iB (loopA.param (iA + 1)))) := by
  rw [walkAux, dif_pos (Or.inl hA), dif_neg (by omega), dif_neg (by omega),
    if_neg hne, if_pos hlt]

/-- Step of the walk in the "B leads" branch: B advances, `a1` is
interpolated on A's current edge. -/
theorem walkAux_stepBLeads {loopA loopB : ParameterizedLoop} {iA iB : ℕ}
    (b : FaceBuilder) (hA : iA < loopA.count) (hB : iB < loopB.count)
    (hne : ¬|loopA.param (iA + 1) - loopB.param (iB + 1)| < EPS)
    (hge : ¬loopA.param (iA + 1) < loopB.param (iB + 1)) :
    walkAux loopA loopB iA iB b =
      walkAux loopA loopB iA (iB + 1)
        (b.addQuad (loopA.vertex iA)
          (loopA.interpolate iA (loopB.param (iB + 1)))
          (loopB.vertex iB) (loopB.vertex (iB + 1))) := by
  rw [walkAux, dif_pos (Or.inl hA), dif_neg (by omega), dif_neg (by omega),
    if_neg hne, if_neg hge]

/-- Induction principle following the branch structure of the walk:
one case per transition rule, plus the terminal case.  Proven by
strong induction on `(nA - iA) + (nB - iB)`, the quantity that every
iteration strictly decreases. -/
theorem walkAux_ind (loopA loopB : ParameterizedLoop)
    (motive : ℕ → ℕ → FaceBuilder → Prop)
    (done : ∀ iA iB b, ¬(iA < loopA.count ∨ iB < loopB.count) →
      motive iA iB b)
    (stepAEx : ∀ iA iB b, iB < loopB.count → iA ≥ loopA.count →
      motive iA (iB + 1)
        (b.addQuad (loopA.vertex iA)
          (loopA.interpolate (loopA.count - 1) (loopB.param (iB + 1)))
          (loopB.vertex iB) (loopB.vertex (iB + 1))) →
      motive iA iB b)
    (stepBEx : ∀ iA iB b, iA < loopA.count → iB ≥ loopB.count →
      motive (iA + 1) iB
        (b.addQuad (loopA.vertex iA) (loopA.vertex (iA + 1))
          (loopB.vertex iB)
          (loopB.interpolate (loopB.count - 1) (loopA.param (iA + 1)))) →
      motive iA iB b)
    (stepTie : ∀ iA iB b, iA < loopA.count → iB < loopB.count →
      |loopA.param (iA + 1) - loopB.param (iB + 1)| < EPS →
      motive (iA + 1) (iB + 1)
        (b.addQuad (loopA.vertex iA) (loopA.vertex (iA + 1))
          (loopB.vertex iB) (loopB.vertex (iB + 1))) →
      motive iA iB b)
    (stepALeads : ∀ iA iB b, iA < loopA.count → iB < loopB.count →
      ¬|loopA.param (iA + 1) - loopB.param (iB + 1)| < EPS →
      loopA.param (iA + 1) < loopB.param (iB + 1) →
      motive (iA + 1) iB
        (b.addQuad (loopA.vertex iA) (loopA.vertex (iA + 1))
          (loopB.vertex iB)
          (loopB.interpolate iB (loopA.param (iA + 1)))) →
      motive iA iB b)
    (stepBLeads : ∀ iA iB b, iA < loopA.count → iB < loopB.count →
      ¬|loopA.param (iA + 1) - loopB.param (iB + 1)| < EPS →
      ¬loopA.param (iA + 1) < loopB.param (iB + 1) →
      motive iA (iB + 1)
        (b.addQuad (loopA.vertex iA)
          (loopA.interpolate iA (loopB.param (iB + 1)))
          (loopB.vertex iB) (loopB.vertex (iB + 1))) →
      motive iA iB b) :
    ∀ iA iB b, motive iA iB b := by
  have H : ∀ n iA iB b,
      (loopA.count - iA) + (loopB.count - iB) ≤ n → motive iA iB b := by
    intro n
    induction n with
    | zero => intro iA iB b hm; exact done iA iB b (by omega)
    | succ n ih =>
      intro iA iB b hm
      by_cases hA : iA ≥ loopA.count
      · by_cases hB : iB < loopB.count
        · exact stepAEx iA iB b hB hA (ih _ _ _ (by omega))
        · exact done iA iB b (by omega)
      · by_cases hB : iB ≥ loopB.count
        · exact stepBEx iA iB b (by omega) hB (ih _ _ _ (by omega))
        · by_cases htie : |loopA.param (iA + 1) - loopB.param (iB + 1)| < EPS
          · exact stepTie iA iB b (by omega) (by omega) htie
              (ih _ _ _ (by omega))
          · by_cases hlt : loopA.param (iA + 1) < loopB.param (iB + 1)
            · exact stepALeads iA iB b (by omega) (by omega) htie hlt
                (ih _ _ _ (by omega))
            · exact stepBLeads iA iB b (by omega) (by omega) htie hlt
                (ih _ _ _ (by omega))
  exact fun iA iB b => H _ iA iB b le_rfl

/-- Every face present in the initial builder is still present in the
result; the walk only appends. -/
theorem walkAux_faces_append (loopA loopB : ParameterizedLoop) :
    ∀ iA iB b, ∃ tail,
      (walkAux loopA loopB iA iB b).faces = b.faces ++ tail := by
  refine walkAux_ind loopA loopB _ ?_ ?_ ?_ ?_ ?_ ?_
  · intro iA iB b h
    exact ⟨[], by rw [walkAux_done h, List.append_nil]⟩
  · intro iA iB b hB hA ih
    obtain ⟨t, ht⟩ := ih
    rw [FaceBuilder.addQuad_faces, List.append_assoc] at ht
    exact ⟨_, by rw [walkAux_stepAExhausted b hB hA]; exact ht⟩
  · intro iA iB b hA hB ih
    obtain ⟨t, ht⟩ := ih
    rw [FaceBuilder.addQuad_faces, List.append_assoc] at ht
    exact ⟨_, by rw [walkAux_stepBExhausted b hA hB]; exact ht⟩
  · intro iA iB b hA hB htie ih
    obtain ⟨t, ht⟩ := ih
    rw [FaceBuilder.addQuad_faces, List.append_assoc] at ht
    exact ⟨_, by rw [walkAux_stepTie b hA hB htie]; exact ht⟩
  · intro iA iB b hA hB htie hlt ih
    obtain ⟨t, ht⟩ := ih
    rw [FaceBuilder.addQuad_faces, List.append_assoc] at ht
    exact ⟨_, by rw [walkAux_stepALeads b hA hB htie hlt]; exact ht⟩
  · intro iA iB b hA hB htie hlt ih
    obtain ⟨t, ht⟩ := ih
    rw [FaceBuilder.addQuad_faces, List.append_assoc] at ht
    exact ⟨_, by rw [walkAux_stepBLeads b hA hB htie hlt]; exact ht⟩

/-- The walk emits at most `(nA - iA) + (nB - iB)` further faces: every
iteration emits one face and strictly increments `iA`, `iB`, or both. -/
theorem walkAux_length_le (loopA loopB : ParameterizedLoop) :
    ∀ iA iB b, (walkAux loopA loopB iA iB b).faces.length ≤
      b.faces.length + ((loopA.count - iA) + (loopB.count - iB)) := by
  refine walkAux_ind loopA loopB _ ?_ ?_ ?_ ?_ ?_ ?_
  · intro iA iB b h
    rw [walkAux_done h]; omega
  · intro iA iB b hB hA ih
    rw [walkAux_stepAExhausted b hB hA]
    simp only [FaceBuilder.addQuad_faces_length] at ih; omega
  · intro iA iB b hA hB ih
    rw [walkAux_stepBExhausted b hA hB]
    simp only [FaceBuilder.addQuad_faces_length] at ih; omega
  · intro iA iB b hA hB htie ih
    rw [walkAux_stepTie b hA hB htie]
    simp only [FaceBuilder.addQuad_faces_length] at ih; omega
  · intro iA iB b hA hB htie hlt ih
    rw [walkAux_stepALeads b hA hB htie hlt]
    simp only [FaceBuilder.addQuad_faces_length] at ih; omega
  · intro iA iB b hA hB htie hlt ih
    rw [walkAux_stepBLeads b hA hB htie hlt]
    simp only [FaceBuilder.addQuad_faces_length] at ih; omega

/-- The walk emits at least `nA - iA` faces: `iA` must reach `nA` and
advances by at most one per emitted face. -/
theorem walkAux_length_geA (loopA loopB : ParameterizedLoop) :
    ∀ iA iB b, b.faces.length + (loopA.count - iA) ≤
      (walkAux loopA loopB iA iB b).faces.length := by
  refine walkAux_ind loopA loopB _ ?_ ?_ ?_ ?_ ?_ ?_
  · intro iA iB b h
    rw [walkAux_done h]; omega
  · intro iA iB b hB hA ih
    rw [walkAux_stepAExhausted b hB hA]
    simp only [FaceBuilder.addQuad_faces_length] at ih; omega
  · intro iA iB b hA hB ih
    rw [walkAux_stepBExhausted b hA hB]
    simp only [FaceBuilder.addQuad_faces_length] at ih; omega
  · intro iA iB b hA hB htie ih
    rw [walkAux_stepTie b hA hB htie]
    simp only [FaceBuilder.addQuad_faces_length] at ih; omega
  · intro iA iB b hA hB htie hlt ih
    rw [walkAux_stepALeads b hA hB htie hlt]
    simp only [FaceBuilder.addQuad_faces_length] at ih; omega
  · intro iA iB b hA hB htie hlt ih
    rw [walkAux_stepBLeads b hA hB htie hlt]
    simp only [FaceBuilder.addQuad_faces_length] at ih; omega

/-- The walk emits at least `nB - iB` faces. -/
theorem walkAux_length_geB (loopA loopB : ParameterizedLoop) :
    ∀ iA iB b, b.faces.length + (loopB.count - iB) ≤
      (walkAux loopA loopB iA iB b).faces.length := by
  refine walkAux_ind loopA loopB _ ?_ ?_ ?_ ?_ ?_ ?_
  · intro iA iB b h
    rw [walkAux_done h]; omega
  · intro iA iB b hB hA ih
    rw [walkAux_stepAExhausted b hB hA]
    simp only [FaceBuilder.addQuad_faces_length] at ih; omega
  · intro iA iB b hA hB ih
    rw [walkAux_stepBExhausted b hA hB]
    simp only [FaceBuilder.addQuad_faces_length] at ih; omega
  · intro iA iB b hA hB htie ih
    rw [walkAux_stepTie b hA hB htie]
    simp only [FaceBuilder.addQuad_faces_length] at ih; omega
  · intro iA iB b hA hB htie hlt ih
    rw [walkAux_stepALeads b hA hB htie hlt]
    simp only [FaceBuilder.addQuad_faces_length] at ih; omega
  · intro iA iB b hA hB htie hlt ih
    rw [walkAux_stepBLeads b hA hB htie hlt]
    simp only [FaceBuilder.addQuad_faces_length] at ih; omega

/-- Heights of the builder never change along the walk. -/
theorem walkAux_heightA (loopA loopB : ParameterizedLoop) :
    ∀ iA iB b, (walkAux loopA loopB iA iB b).heightA = b.heightA := by
  refine walkAux_ind loopA loopB _ ?_ ?_ ?_ ?_ ?_ ?_
  · intro iA iB b h; rw [walkAux_done h]
  · intro iA iB b hB hA ih; rw [walkAux_stepAExhausted b hB hA]; exact ih
  · intro iA iB b hA hB ih; rw [walkAux_stepBExhausted b hA hB]; exact ih
  · intro iA iB b hA hB htie ih; rw [walkAux_stepTie b hA hB htie]; exact ih
  · intro iA iB b hA hB htie hlt ih
    rw [walkAux_stepALeads b hA hB htie hlt]; exact ih
  · intro iA iB b hA hB htie hlt ih
    rw [walkAux_stepBLeads b hA hB htie hlt]; exact ih

/-- The quad just appended by `addQuad` survives to the end of the
walk. -/
theorem mem_walkAux_addQuad (loopA loopB : ParameterizedLoop)
    (iA iB : ℕ) (b : FaceBuilder) (a0 a1 b0 b1 : Vec2) :
    ∃ f ∈ (walkAux loopA loopB iA iB (b.addQuad a0 a1 b0 b1)).faces,
      f.vertices = [⟨a0.x, a0.y, b.heightA⟩, ⟨a1.x, a1.y, b.heightA⟩,
        ⟨b1.x, b1.y, b.heightB⟩, ⟨b0.x, b0.y, b.heightB⟩] := by
  obtain ⟨t, ht⟩ := walkAux_faces_append loopA loopB iA iB
    (b.addQuad a0 a1 b0 b1)
  refine ⟨⟨[⟨a0.x, a0.y, b.heightA⟩, ⟨a1.x, a1.y, b.heightA⟩,
    ⟨b1.x, b1.y, b.heightB⟩, ⟨b0.x, b0.y, b.heightB⟩]⟩, ?_, rfl⟩
  rw [ht, FaceBuilder.addQuad_faces]
  exact List.mem_append_left _
    (List.mem_append_right _ (List.mem_singleton.mpr rfl))

theorem ParameterizedLoop.vertex_mem (L : ParameterizedLoop)
    (h : 0 < L.count) (i : ℕ) : L.vertex i ∈ L.vertices := by
  unfold ParameterizedLoop.vertex
  have hlt : i % L.count < L.vertices.length := Nat.mod_lt _ h
  rw [List.getD_eq_getElem _ _ hlt]
  exact List.getElem_mem hlt

/-- Every face emitted by the walk is a quad whose `a0` corner is an
original vertex of loop A lifted to height A, whose `b0` corner is an
original vertex of loop B lifted to height B, and whose `a1`/`b1`
corners satisfy: at least one of them is an original vertex of its loop
(the walk never interpolates on both loops in the same face). -/
theorem walkAux_faces_shape (loopA loopB : ParameterizedLoop)
    (hA0 : 0 < loopA.count) (hB0 : 0 < loopB.count) :
    ∀ iA iB b, ∀ f ∈ (walkAux loopA loopB iA iB b).faces,
      f ∈ b.faces ∨ ∃ a0 a1 b0 b1 : Vec2,
        a0 ∈ loopA.vertices ∧ b0 ∈ loopB.vertices ∧
        (a1 ∈ loopA.vertices ∨ b1 ∈ loopB.vertices) ∧
        f.vertices = [⟨a0.x, a0.y, b.heightA⟩, ⟨a1.x, a1.y, b.heightA⟩,
          ⟨b1.x, b1.y, b.heightB⟩, ⟨b0.x, b0.y, b.heightB⟩] := by
  refine walkAux_ind loopA loopB _ ?_ ?_ ?_ ?_ ?_ ?_
  · intro iA iB b h f hf
    rw [walkAux_done h] at hf
    exact Or.inl hf
  · intro iA iB b hB hA ih
    rw [walkAux_stepAExhausted b hB hA]
    simp only [FaceBuilder.addQuad_heightA, FaceBuilder.addQuad_heightB] at ih
    intro f hf
    rcases ih f hf with hold | hq
    · rw [FaceBuilder.addQuad_faces] at hold
      rcases List.mem_append.mp hold with h | h
      · exact Or.inl h
      · refine Or.inr ⟨loopA.vertex iA,
          loopA.interpolate (loopA.count - 1) (loopB.param (iB + 1)),
          loopB.vertex iB, loopB.vertex (iB + 1),
          loopA.vertex_mem hA0 iA, loopB.vertex_mem hB0 iB,
          Or.inr (loopB.vertex_mem hB0 (iB + 1)), ?_⟩
        rw [List.mem_singleton.mp h]
    · exact Or.inr hq
  · intro iA iB b hA hB ih
    rw [walkAux_stepBExhausted b hA hB]
    simp only [FaceBuilder.addQuad_heightA, FaceBuilder.addQuad_heightB] at ih
    intro f hf
    rcases ih f hf with hold | hq
    · rw [FaceBuilder.addQuad_faces] at hold
      rcases List.mem_append.mp hold with h | h
      · exact Or.inl h
      · refine Or.inr ⟨loopA.vertex iA, loopA.vertex (iA + 1),
          loopB.vertex iB,
          loopB.interpolate (loopB.count - 1) (loopA.param (iA + 1)),
          loopA.vertex_mem hA0 iA, loopB.vertex_mem hB0 iB,
          Or.inl (loopA.vertex_mem hA0 (iA + 1)), ?_⟩
        rw [List.mem_singleton.mp h]
    · exact Or.inr hq
  · intro iA iB b hA hB htie ih
    rw [walkAux_stepTie b hA hB htie]
    simp only [FaceBuilder.addQuad_heightA, FaceBuilder.addQuad_heightB] at ih
    intro f hf
    rcases ih f hf with hold | hq
    · rw [FaceBuilder.addQuad_faces] at hold
      rcases List.mem_append.mp hold with h | h
      · exact Or.inl h
      · refine Or.inr ⟨loopA.vertex iA, loopA.vertex (iA + 1),
          loopB.vertex iB, loopB.vertex (iB + 1),
          loopA.vertex_mem hA0 iA, loopB.vertex_mem hB0 iB,
          Or.inl (loopA.vertex_mem hA0 (iA + 1)), ?_⟩
        rw [List.mem_singleton.mp h]
    · exact Or.inr hq
  · intro iA iB b hA hB htie hlt ih
    rw [walkAux_stepALeads b hA hB htie hlt]
    simp only [FaceBuilder.addQuad_heightA, FaceBuilder.addQuad_heightB] at ih
    intro f hf
    rcases ih f hf with hold | hq
    · rw [FaceBuilder.addQuad_faces] at hold
      rcases List.mem_append.mp hold with h | h
      · exact Or.inl h
      · refine Or.inr ⟨loopA.vertex iA, loopA.vertex (iA + 1),
          loopB.vertex iB, loopB.interpolate iB (loopA.param (iA + 1)),
          loopA.vertex_mem hA0 iA, loopB.vertex_mem hB0 iB,
          Or.inl (loopA.vertex_mem hA0 (iA + 1)), ?_⟩
        rw [List.mem_singleton.mp h]
    · exact Or.inr hq
  · intro iA iB b hA hB htie hlt ih
    rw [walkAux_stepBLeads b hA hB htie hlt]
    simp only [FaceBuilder.addQuad_heightA, FaceBuilder.addQuad_heightB] at ih
    intro f hf
    rcases ih f hf with hold | hq
    · rw [FaceBuilder.addQuad_faces] at hold
      rcases List.mem_append.mp hold with h | h
      · exact Or.inl h
      · refine Or.inr ⟨loopA.vertex iA,
          loopA.interpolate iA (loopB.param (iB + 1)),
          loopB.vertex iB, loopB.vertex (iB + 1),
          loopA.vertex_mem hA0 iA, loopB.vertex_mem hB0 iB,
          Or.inr (loopB.vertex_mem hB0 (iB + 1)), ?_⟩
        rw [List.mem_singleton.mp h]
    · exact Or.inr hq

/-- Every vertex index `k` of loop A not yet passed by cursor `iA`
shows up (lifted to height A) as an exact corner of some emitted
face: the face emitted while `iA = k` has `a0 = vertex k`. -/
theorem walkAux_coversA (loopA loopB : ParameterizedLoop) :
    ∀ iA iB b, ∀ k, iA ≤ k → k < loopA.count →
      ∃ f ∈ (walkAux loopA loopB iA iB b).faces,
        (⟨(loopA.vertex k).x, (loopA.vertex k).y, b.heightA⟩ : Vec3) ∈
          f.vertices := by
  refine walkAux_ind loopA loopB _ ?_ ?_ ?_ ?_ ?_ ?_
  · intro iA iB b h k hk1 hk2
    exact absurd (Or.inl (by omega : iA < loopA.count)) h
  · intro iA iB b hB hA ih k hk1 hk2
    omega
  · intro iA iB b hA hB ih k hk1 hk2
    rw [walkAux_stepBExhausted b hA hB]
    simp only [FaceBuilder.addQuad_heightA] at ih
    rcases Nat.eq_or_lt_of_le hk1 with heq | hlt2
    · subst heq
      obtain ⟨f, hf, hfv⟩ := mem_walkAux_addQuad loopA loopB (iA + 1) iB b
        (loopA.vertex iA) (loopA.vertex (iA + 1)) (loopB.vertex iB)
        (loopB.interpolate (loopB.count - 1) (loopA.param (iA + 1)))
      exact ⟨f, hf, by rw [hfv]; simp⟩
    · exact ih k hlt2 hk2
  · intro iA iB b hA hB htie ih k hk1 hk2
    rw [walkAux_stepTie b hA hB htie]
    simp only [FaceBuilder.addQuad_heightA] at ih
    rcases Nat.eq_or_lt_of_le hk1 with heq | hlt2
    · subst heq
      obtain ⟨f, hf, hfv⟩ := mem_walkAux_addQuad loopA loopB (iA + 1) (iB + 1)
        b (loopA.vertex iA) (loopA.vertex (iA + 1)) (loopB.vertex iB)
        (loopB.vertex (iB + 1))
      exact ⟨f, hf, by rw [hfv]; simp⟩
    · exact ih k hlt2 hk2
  · intro iA iB b hA hB htie hlt ih k hk1 hk2
    rw [walkAux_stepALeads b hA hB htie hlt]
    simp only [FaceBuilder.addQuad_heightA] at ih
    rcases Nat.eq_or_lt_of_le hk1 with heq | hlt2
    · subst heq
      obtain ⟨f, hf, hfv⟩ := mem_walkAux_addQuad loopA loopB (iA + 1) iB b
        (loopA.vertex iA) (loopA.vertex (iA + 1)) (loopB.vertex iB)
        (loopB.interpolate iB (loopA.param (iA + 1)))
      exact ⟨f, hf, by rw [hfv]; simp⟩
    · exact ih k hlt2 hk2
  · intro iA iB b hA hB htie hlt ih k hk1 hk2
    rw [walkAux_stepBLeads b hA hB htie hlt]
    simp only [FaceBuilder.addQuad_heightA] at ih
    exact ih k hk1 hk2

/-- Every vertex index `k` of loop B not yet passed by cursor `iB`
shows up (lifted to height B) as an exact corner of some emitted
face: the face emitted while `iB = k` has `b0 = vertex k`. -/
theorem walkAux_coversB (loopA loopB : ParameterizedLoop) :
    ∀ iA iB b, ∀ k, iB ≤ k → k < loopB.count →
      ∃ f ∈ (walkAux loopA loopB iA iB b).faces,
        (⟨(loopB.vertex k).x, (loopB.vertex k).y, b.heightB⟩ : Vec3) ∈
          f.vertices := by
  refine walkAux_ind loopA loopB _ ?_ ?_ ?_ ?_ ?_ ?_
  · intro iA iB b h k hk1 hk2
    exact absurd (Or.inr (by omega : iB < loopB.count)) h
  · intro iA iB b hB hA ih k hk1 hk2
    rw [walkAux_stepAExhausted b hB hA]
    simp only [FaceBuilder.addQuad_heightB] at ih
    rcases Nat.eq_or_lt_of_le hk1 with heq | hlt2
    · subst heq
      obtain ⟨f, hf, hfv⟩ := mem_walkAux_addQuad loopA loopB iA (iB + 1) b
        (loopA.vertex iA)
        (loopA.interpolate (loopA.count - 1) (loopB.param (iB + 1)))
        (loopB.vertex iB) (loopB.vertex (iB + 1))
      exact ⟨f, hf, by rw [hfv]; simp⟩
    · exact ih k hlt2 hk2
  · intro iA iB b hA hB ih k hk1 hk2
    omega
  · intro iA iB b hA hB htie ih k hk1 hk2
    rw [walkAux_stepTie b hA hB htie]
    simp only [FaceBuilder.addQuad_heightB] at ih
    rcases Nat.eq_or_lt_of_le hk1 with heq | hlt2
    · subst heq
      obtain ⟨f, hf, hfv⟩ := mem_walkAux_addQuad loopA loopB (iA + 1) (iB + 1)
        b (loopA.vertex iA) (loopA.vertex (iA + 1)) (loopB.vertex iB)
        (loopB.vertex (iB + 1))
      exact ⟨f, hf, by rw [hfv]; simp⟩
    · exact ih k hlt2 hk2
  · intro iA iB b hA hB htie hlt ih k hk1 hk2
    rw [walkAux_stepALeads b hA hB htie hlt]
    simp only [FaceBuilder.addQuad_heightB] at ih
    exact ih k hk1 hk2
  · intro iA iB b hA hB htie hlt ih k hk1 hk2
    rw [walkAux_stepBLeads b hA hB htie hlt]
    simp only [FaceBuilder.addQuad_heightB] at ih
    rcases Nat.eq_or_lt_of_le hk1 with heq | hlt2
    · subst heq
      obtain ⟨f, hf, hfv⟩ := mem_walkAux_addQuad loopA loopB iA (iB + 1) b
        (loopA.vertex iA) (loopA.interpolate iA (loopB.param (iB + 1)))
        (loopB.vertex iB) (loopB.vertex (iB + 1))
      exact ⟨f, hf, by rw [hfv]; simp⟩
    · exact ih k hlt2 hk2

/-! ### Lemmas about the preprocessing pipeline -/

@[simp] theorem rotateArray_length {α : Type} (arr : List α) (i : ℕ) :
    (rotateArray arr i).length = arr.length := by
  unfold rotateArray
  split
  · rfl
  · simp only [List.length_append, List.length_drop, List.length_take]
    omega

@[simp] theorem rotateArray_mem {α : Type} (v : α) (arr : List α) (i : ℕ) :
    v ∈ rotateArray arr i ↔ v ∈ arr := by
  unfold rotateArray
  split
  · rfl
  · rw [List.mem_append, or_comm, ← List.mem_append, List.take_append_drop]

@[simp] theorem alignLoopStarts_length (loopA loopB : List Vec2) :
    (alignLoopStarts loopA loopB).length = loopB.length :=
  rotateArray_length _ _

@[simp] theorem alignLoopStarts_mem (v : Vec2) (loopA loopB : List Vec2) :
    v ∈ alignLoopStarts loopA loopB ↔ v ∈ loopB :=
  rotateArray_mem _ _ _

@[simp] theorem ParameterizedLoop.ofVertices_vertices (vs : List Vec2) :
    (ParameterizedLoop.ofVertices vs).vertices = ensureWindingCCW vs := rfl

@[simp] theorem ParameterizedLoop.ofVertices_count (vs : List Vec2) :
    (ParameterizedLoop.ofVertices vs).count = vs.length := by
  show (ensureWindingCCW vs).length = vs.length
  simp

/-- Unfolding of `perimeterWalkAlgorithm` in the non-degenerate case. -/
theorem perimeterWalkAlgorithm_eq {loopA loopB : List Vec2}
    (hA hB : ℝ) (h3A : 3 ≤ loopA.length) (h3B : 3 ≤ loopB.length) :
    perimeterWalkAlgorithm loopA hA loopB hB =
      ⟨(walkAux (ParameterizedLoop.ofVertices (ensureWindingCCW loopA))
          (ParameterizedLoop.ofVertices
            (alignLoopStarts (ensureWindingCCW loopA)
              (ensureWindingCCW loopB)))
          0 0 ⟨hA, hB, []⟩).faces⟩ := by
  rw [perimeterWalkAlgorithm, if_neg (by omega)]
  rfl

/-- Face-list form of `perimeterWalkAlgorithm_eq`. -/
theorem perimeterWalkAlgorithm_faces {loopA loopB : List Vec2}
    (hA hB : ℝ) (h3A : 3 ≤ loopA.length) (h3B : 3 ≤ loopB.length) :
    (perimeterWalkAlgorithm loopA hA loopB hB).faces =
      (walkAux (ParameterizedLoop.ofVertices (ensureWindingCCW loopA))
        (ParameterizedLoop.ofVertices
          (alignLoopStarts (ensureWindingCCW loopA)
            (ensureWindingCCW loopB)))
        0 0 ⟨hA, hB, []⟩).faces := by
  rw [perimeterWalkAlgorithm_eq hA hB h3A h3B]

/-! ### Claim theorems: the walk (C1, C10) -/

/-- C1: for every pair of loops with at least 3 vertices each,
`walkPerimeters` terminates (it is a total function, defined by
recursion on the strictly decreasing `(nA - iA) + (nB - iB)`; the loop
runs while `iA < nA ∨ iB < nB` and every iteration strictly increments
`iA`, `iB`, or both), and the result contains at most `nA + nB` faces,
each with exactly 4 vertices. -/
theorem walkPerimeters_faces_bounded (loopA loopB : ParameterizedLoop)
    (hA hB : ℝ) (h3A : 3 ≤ loopA.count) (h3B : 3 ≤ loopB.count) :
    (walkPerimeters loopA loopB ⟨hA, hB, []⟩).faces.length ≤
      loopA.count + loopB.count ∧
    ∀ f ∈ (walkPerimeters loopA loopB ⟨hA, hB, []⟩).faces,
      f.vertices.length = 4 := by
  constructor
  · have h := walkAux_length_le loopA loopB 0 0 ⟨hA, hB, []⟩
    simp only [List.length_nil, Nat.sub_zero, Nat.zero_add] at h
    exact h
  · intro f hf
    have h := walkAux_faces_shape loopA loopB (by omega) (by omega)
      0 0 ⟨hA, hB, []⟩ f hf
    rcases h with h | ⟨a0, a1, b0, b1, _, _, _, hv⟩
    · exact absurd h (List.not_mem_nil f)
    · rw [hv]; rfl

theorem walkPerimeters_faces_bounded_witness :
    3 ≤ (ParameterizedLoop.mk [⟨0, 0⟩, ⟨3, 0⟩, ⟨0, 4⟩]
        [0, 1/4, 2/3] 12).count ∧
    ((walkPerimeters
        (ParameterizedLoop.mk [⟨0, 0⟩, ⟨3, 0⟩, ⟨0, 4⟩] [0, 1/4, 2/3] 12)
        (ParameterizedLoop.mk [⟨0, 0⟩, ⟨3, 0⟩, ⟨0, 4⟩] [0, 1/4, 2/3] 12)
        ⟨0, 1, []⟩).faces.length ≤
      (ParameterizedLoop.mk [⟨0, 0⟩, ⟨3, 0⟩, ⟨0, 4⟩] [0, 1/4, 2/3] 12).count +
      (ParameterizedLoop.mk [⟨0, 0⟩, ⟨3, 0⟩, ⟨0, 4⟩] [0, 1/4, 2/3] 12).count ∧
    ∀ f ∈ (walkPerimeters
        (ParameterizedLoop.mk [⟨0, 0⟩, ⟨3, 0⟩, ⟨0, 4⟩] [0, 1/4, 2/3] 12)
        (ParameterizedLoop.mk [⟨0, 0⟩, ⟨3, 0⟩, ⟨0, 4⟩] [0, 1/4, 2/3] 12)
        ⟨0, 1, []⟩).faces, f.vertices.length = 4) :=
  ⟨by decide, walkPerimeters_faces_bounded _ _ 0 1 (by decide) (by decide)⟩

/-- C10: for every pair of loops with at least 3 vertices each, the
result of `perimeterWalkAlgorithm` contains at least
`max nA nB` faces — in particular it is never empty — because the walk
must advance `iA` from 0 to `nA` and `iB` from 0 to `nB`, each
iteration advances each cursor by at most 1, and every iteration emits
exactly one face. -/
theorem perimeterWalkAlgorithm_min_faces (loopA : List Vec2) (hA : ℝ)
    (loopB : List Vec2) (hB : ℝ)
    (h3A : 3 ≤ loopA.length) (h3B : 3 ≤ loopB.length) :
    max loopA.length loopB.length ≤
      (perimeterWalkAlgorithm loopA hA loopB hB).faces.length ∧
    (perimeterWalkAlgorithm loopA hA loopB hB).faces ≠ [] := by
  rw [perimeterWalkAlgorithm_faces hA hB h3A h3B]
  have geA := walkAux_length_geA
    (ParameterizedLoop.ofVertices (ensureWindingCCW loopA))
    (ParameterizedLoop.ofVertices
      (alignLoopStarts (ensureWindingCCW loopA) (ensureWindingCCW loopB)))
    0 0 ⟨hA, hB, []⟩
  have geB := walkAux_length_geB
    (ParameterizedLoop.ofVertices (ensureWindingCCW loopA))
    (ParameterizedLoop.ofVertices
      (alignLoopStarts (ensureWindingCCW loopA) (ensureWindingCCW loopB)))
    0 0 ⟨hA, hB, []⟩
  simp only [ParameterizedLoop.ofVertices_count, ensureWindingCCW_length,
    alignLoopStarts_length, List.length_nil, Nat.sub_zero,
    Nat.zero_add] at geA geB
  refine ⟨by omega, ?_⟩
  intro hnil
  rw [hnil] at geA
  simp only [List.length_nil, Nat.le_zero] at geA
  omega

theorem perimeterWalkAlgorithm_min_faces_witness :
    3 ≤ ([⟨0, 0⟩, ⟨3, 0⟩, ⟨0, 4⟩] : List Vec2).length ∧
    (max ([⟨0, 0⟩, ⟨3, 0⟩, ⟨0, 4⟩] : List Vec2).length
        ([⟨0, 0⟩, ⟨3, 0⟩, ⟨0, 4⟩] : List Vec2).length ≤
      (perimeterWalkAlgorithm [⟨0, 0⟩, ⟨3, 0⟩, ⟨0, 4⟩] 0
        [⟨0, 0⟩, ⟨3, 0⟩, ⟨0, 4⟩] 1).faces.length ∧
    (perimeterWalkAlgorithm [⟨0, 0⟩, ⟨3, 0⟩, ⟨0, 4⟩] 0
        [⟨0, 0⟩, ⟨3, 0⟩, ⟨0, 4⟩] 1).faces ≠ []) :=
  ⟨by decide,
    perimeterWalkAlgorithm_min_faces _ 0 _ 1 (by decide) (by decide)⟩

/-! ### Claim theorems: degenerate input (C4) and the face builder (C7) -/

/-- C4: for every pair of input loops, if either loop has fewer than 3
vertices, `perimeterWalkAlgorithm` returns a `LoftResult` with an empty
face list (it does not raise an error). -/
theorem perimeterWalkAlgorithm_degenerate (loopA : List Vec2) (hA : ℝ)
    (loopB : List Vec2) (hB : ℝ)
    (h : loopA.length < 3 ∨ loopB.length < 3) :
    (perimeterWalkAlgorithm loopA hA loopB hB).faces = [] := by
  rw [perimeterWalkAlgorithm, if_pos h]

theorem perimeterWalkAlgorithm_degenerate_witness :
    ([⟨0, 0⟩, ⟨1, 0⟩] : List Vec2).length < 3 ∧
    (perimeterWalkAlgorithm [⟨0, 0⟩, ⟨1, 0⟩] 0
      [⟨0, 0⟩, ⟨3, 0⟩, ⟨0, 4⟩] 5).faces = [] :=
  ⟨by decide,
    perimeterWalkAlgorithm_degenerate _ 0 _ 5 (Or.inl (by decide))⟩

/-- C7: every call `addQuad(a0, a1, b0, b1)` on a `FaceBuilder`
constructed with heights `heightA` and `heightB` appends exactly one
face, whose vertex sequence is `[a0 at heightA, a1 at heightA,
b1 at heightB, b0 at heightB]` in that exact order. -/
theorem addQuad_appends_one_face (heightA heightB : ℝ)
    (faces : List LoftFace) (a0 a1 b0 b1 : Vec2) :
    (FaceBuilder.addQuad ⟨heightA, heightB, faces⟩ a0 a1 b0 b1).faces =
      faces ++ [⟨[⟨a0.x, a0.y, heightA⟩, ⟨a1.x, a1.y, heightA⟩,
        ⟨b1.x, b1.y, heightB⟩, ⟨b0.x, b0.y, heightB⟩]⟩] := rfl

/-! ### Parameterization invariants (C5) -/

namespace ParameterizedLoop

theorem edgeLen_nonneg (vs : List Vec2) (i : ℕ) : 0 ≤ edgeLen vs i :=
  distanceTo_nonneg _ _

theorem ofVertices_totalLength (input : List Vec2) :
    (ofVertices input).totalLength =
      ∑ i ∈ Finset.range (ensureWindingCCW input).length,
        edgeLen (ensureWindingCCW input) i := rfl

theorem ofVertices_totalLength_nonneg (input : List Vec2) :
    0 ≤ (ofVertices input).totalLength := by
  rw [ofVertices_totalLength]
  exact Finset.sum_nonneg fun i _ => edgeLen_nonneg _ i

theorem ofVertices_params_length (input : List Vec2) :
    (ofVertices input).params.length =
      max (ensureWindingCCW input).length 1 := by
  show ((cumDistances (ensureWindingCCW input)).map _).length = _
  rw [List.length_map, cumDistances, List.length_map, List.length_range]

theorem ofVertices_params_getD_lt (input : List Vec2) (k : ℕ)
    (hk : k < max (ensureWindingCCW input).length 1) :
    (ofVertices input).params.getD k 0 =
      if 0 < (ofVertices input).totalLength then
        (∑ i ∈ Finset.range k, edgeLen (ensureWindingCCW input) i) /
          (ofVertices input).totalLength
      else 0 := by
  show ((cumDistances (ensureWindingCCW input)).map _).getD k 0 = _
  rw [cumDistances, List.map_map]
  rw [List.getD_eq_getElem _ _ (by simpa using hk)]
  simp [ofVertices_totalLength]

theorem ofVertices_params_getD_ge (input : List Vec2) (k : ℕ)
    (hk : max (ensureWindingCCW input).length 1 ≤ k) :
    (ofVertices input).params.getD k 0 = 0 :=
  List.getD_eq_default _ _ (by rw [ofVertices_params_length]; exact hk)

theorem ofVertices_param_def (input : List Vec2) (i : ℕ) :
    (ofVertices input).param i =
      if i ≥ input.length then 1 else (ofVertices input).params.getD i 0 := by
  rw [param, ofVertices_count]

end ParameterizedLoop

open ParameterizedLoop in
/-- C5: for every `ParameterizedLoop` built by the constructor, the
parameters are non-decreasing in traversal order (through the wrap
sentinel), the parameter stored at index 0 is exactly 0, `param(count)`
returns exactly `1.0`, and if the total perimeter length is 0 then
every stored parameter is 0. -/
theorem parameterizedLoop_invariants (input : List Vec2) :
    (∀ i, (ofVertices input).param i ≤ (ofVertices input).param (i + 1)) ∧
    (ofVertices input).params.getD 0 0 = 0 ∧
    (ofVertices input).param (ofVertices input).count = 1 ∧
    ((ofVertices input).totalLength = 0 →
      ∀ i, (ofVertices input).params.getD i 0 = 0) := by
  have hT0 : 0 ≤ (ofVertices input).totalLength :=
    ofVertices_totalLength_nonneg input
  have hlen : (ensureWindingCCW input).length = input.length :=
    ensureWindingCCW_length input
  have hsum_le : ∀ k, k ≤ input.length →
      (∑ i ∈ Finset.range k, edgeLen (ensureWindingCCW input) i) ≤
        (ofVertices input).totalLength := by
    intro k hk
    rw [ofVertices_totalLength]
    exact Finset.sum_le_sum_of_subset_of_nonneg
      (Finset.range_subset.mpr (by omega))
      (fun i _ _ => edgeLen_nonneg _ i)
  have hsum_nonneg : ∀ k : ℕ,
      0 ≤ ∑ i ∈ Finset.range k, edgeLen (ensureWindingCCW input) i :=
    fun k => Finset.sum_nonneg fun i _ => edgeLen_nonneg _ i
  refine ⟨?_, ?_, ?_, ?_⟩
  · intro i
    rw [ofVertices_param_def, ofVertices_param_def]
    by_cases hi : i ≥ input.length
    · rw [if_pos hi, if_pos (by omega)]
    · rw [if_neg hi]
      have hilt : i < input.length := by omega
      have hik : i < max (ensureWindingCCW input).length 1 := by omega
      by_cases hi1 : i + 1 ≥ input.length
      · rw [if_pos hi1, ofVertices_params_getD_lt input i hik]
        split
        · next hTpos =>
            rw [div_le_one hTpos]
            exact hsum_le i (by omega)
        · norm_num
      · rw [if_neg hi1, ofVertices_params_getD_lt input i hik,
          ofVertices_params_getD_lt input (i + 1) (by omega)]
        split
        · next hTpos =>
            refine (div_le_div_iff_of_pos_right hTpos).mpr ?_
            rw [Finset.sum_range_succ]
            exact le_add_of_nonneg_right (edgeLen_nonneg _ i)
        · exact le_refl 0
  · rw [ofVertices_params_getD_lt input 0 (by omega)]
    split <;> simp
  · rw [param, if_pos (le_refl _)]
  · intro hT i
    by_cases hik : i < max (ensureWindingCCW input).length 1
    · rw [ofVertices_params_getD_lt input i hik, if_neg (by rw [hT]; simp)]
    · exact ofVertices_params_getD_ge input i (by omega)

/-- Evaluation of the fully degenerate loop: three coincident points
have total perimeter length 0. -/
theorem tripleP_totalLength :
    (ParameterizedLoop.ofVertices
      [⟨1, 2⟩, ⟨1, 2⟩, ⟨1, 2⟩]).totalLength = 0 := by
  have hV : ensureWindingCCW [⟨1, 2⟩, ⟨1, 2⟩, ⟨1, 2⟩] =
      ([⟨1, 2⟩, ⟨1, 2⟩, ⟨1, 2⟩] : List Vec2) := by
    unfold ensureWindingCCW
    rw [if_neg (by norm_num)]
    rw [if_neg ?_]
    simp [shoelace, Finset.sum_range_succ, List.getD]
  rw [ParameterizedLoop.ofVertices_totalLength, hV]
  simp [ParameterizedLoop.edgeLen, Finset.sum_range_succ, List.getD,
    distanceTo_self]

theorem parameterizedLoop_invariants_witness :
    (ParameterizedLoop.ofVertices
      [⟨1, 2⟩, ⟨1, 2⟩, ⟨1, 2⟩]).totalLength = 0 ∧
    ∀ i, (ParameterizedLoop.ofVertices
      [⟨1, 2⟩, ⟨1, 2⟩, ⟨1, 2⟩]).params.getD i 0 = 0 :=
  ⟨tripleP_totalLength,
    (parameterizedLoop_invariants _).2.2.2 tripleP_totalLength⟩

/-! ### Alignment (C6) -/

/-- Invariant-based specification of the `findClosestVertexIndex` loop:
starting from a prefix already scanned (with the best index and best
distance so far), the final answer is the strict argmin over the whole
list, preferring the lowest index among ties. -/
theorem closestAux_spec (t : Vec2) :
    ∀ (suf pre : List Vec2) (bi : ℕ) (bd : WithTop ℝ),
      ((pre = [] ∧ bi = 0 ∧ bd = ⊤) ∨
        (bi < pre.length ∧
          bd = (distanceTo t (pre.getD bi ⟨0, 0⟩) : WithTop ℝ) ∧
          (∀ j < pre.length, distanceTo t (pre.getD bi ⟨0, 0⟩) ≤
            distanceTo t (pre.getD j ⟨0, 0⟩)) ∧
          (∀ j < bi, distanceTo t (pre.getD bi ⟨0, 0⟩) <
            distanceTo t (pre.getD j ⟨0, 0⟩)))) →
      ((pre ++ suf = [] ∧ closestAux t suf pre.length bi bd = 0) ∨
        (closestAux t suf pre.length bi bd < (pre ++ suf).length ∧
          (∀ j < (pre ++ suf).length,
            distanceTo t
              ((pre ++ suf).getD (closestAux t suf pre.length bi bd)
                ⟨0, 0⟩) ≤
              distanceTo t ((pre ++ suf).getD j ⟨0, 0⟩)) ∧
          (∀ j < closestAux t suf pre.length bi bd,
            distanceTo t
              ((pre ++ suf).getD (closestAux t suf pre.length bi bd)
                ⟨0, 0⟩) <
              distanceTo t ((pre ++ suf).getD j ⟨0, 0⟩)))) := by
  intro suf
  induction suf with
  | nil =>
    intro pre bi bd hinv
    rcases hinv with ⟨hpre, hbi, _⟩ | ⟨h1, _, h3, h4⟩
    · exact Or.inl ⟨by simp [hpre], by rw [closestAux, hbi]⟩
    · refine Or.inr ?_
      rw [closestAux, List.append_nil]
      exact ⟨h1, h3, h4⟩
  | cons p rest ih =>
    intro pre bi bd hinv
    have hsplit : pre ++ p :: rest = (pre ++ [p]) ++ rest := by simp
    rw [hsplit, closestAux]
    split
    · next hlt =>
      have hstep := ih (pre ++ [p]) pre.length (distanceTo t p)
      rw [List.length_append, List.length_singleton] at hstep
      refine hstep (Or.inr ⟨by omega, ?_, ?_, ?_⟩)
      · rw [List.getD_append_right pre [p] _ _ (le_refl _), Nat.sub_self]
        simp
      · intro j hj
        rw [List.getD_append_right pre [p] _ _ (le_refl _), Nat.sub_self]
        rcases Nat.lt_or_ge j pre.length with hjp | hjp
        · rw [List.getD_append pre [p] _ _ hjp]
          rcases hinv with ⟨hpre, _, _⟩ | ⟨h1, h2, h3, _⟩
          · rw [hpre] at hjp; simp at hjp
          · rw [h2] at hlt
            have hlt' : distanceTo t p <
                distanceTo t (pre.getD bi ⟨0, 0⟩) :=
              WithTop.coe_lt_coe.mp hlt
            simp only [List.getD_cons_zero]
            exact le_of_lt (lt_of_lt_of_le hlt' (h3 j hjp))
        · have hj1 : j = pre.length := by omega
          rw [hj1, List.getD_append_right pre [p] _ _ (le_refl _),
            Nat.sub_self]
      · intro j hj
        rw [List.getD_append_right pre [p] _ _ (le_refl _), Nat.sub_self,
          List.getD_append pre [p] _ _ hj]
        rcases hinv with ⟨hpre, _, _⟩ | ⟨h1, h2, h3, _⟩
        · rw [hpre] at hj; simp at hj
        · rw [h2] at hlt
          have hlt' : distanceTo t p <
              distanceTo t (pre.getD bi ⟨0, 0⟩) :=
            WithTop.coe_lt_coe.mp hlt
          simp only [List.getD_cons_zero]
          exact lt_of_lt_of_le hlt' (h3 j hj)
    · next hge =>
      have hstep := ih (pre ++ [p]) bi bd
      rw [List.length_append, List.length_singleton] at hstep
      rcases hinv with ⟨hpre, hbi, hbd⟩ | ⟨h1, h2, h3, h4⟩
      · rw [hbd] at hge
        exact absurd (WithTop.coe_lt_top _) hge
      · refine hstep (Or.inr ⟨by omega, ?_, ?_, ?_⟩)
        · rw [List.getD_append pre [p] _ _ h1]
          exact h2
        · intro j hj
          rw [List.getD_append pre [p] _ _ h1]
          rcases Nat.lt_or_ge j pre.length with hjp | hjp
          · rw [List.getD_append pre [p] _ _ hjp]
            exact h3 j hjp
          · have hj1 : j = pre.length := by omega
            rw [hj1, List.getD_append_right pre [p] _ _ (le_refl _),
              Nat.sub_self]
            rw [h2] at hge
            exact not_lt.mp fun hc => hge (WithTop.coe_lt_coe.mpr hc)
        · intro j hj
          rw [List.getD_append pre [p] _ _ h1,
            List.getD_append pre [p] _ _ (by omega)]
          exact h4 j hj

/-- C6: `findClosestVertexIndex(loopA, loopB)` returns the index of the
vertex of `loopB` with minimal Euclidean distance to `loopA`'s vertex 0,
choosing the lowest index among ties (strict less-than comparison), and
`alignLoopStarts(loopA, loopB)` cyclically rotates `loopB` so that this
closest vertex is at index 0. -/
theorem findClosestVertexIndex_spec (loopA loopB : List Vec2)
    (hA : loopA ≠ []) (hB : loopB ≠ []) :
    findClosestVertexIndex loopA loopB < loopB.length ∧
    (∀ j < loopB.length,
      distanceTo (loopA.getD 0 ⟨0, 0⟩)
        (loopB.getD (findClosestVertexIndex loopA loopB) ⟨0, 0⟩) ≤
        distanceTo (loopA.getD 0 ⟨0, 0⟩) (loopB.getD j ⟨0, 0⟩)) ∧
    (∀ j < findClosestVertexIndex loopA loopB,
      distanceTo (loopA.getD 0 ⟨0, 0⟩)
        (loopB.getD (findClosestVertexIndex loopA loopB) ⟨0, 0⟩) <
        distanceTo (loopA.getD 0 ⟨0, 0⟩) (loopB.getD j ⟨0, 0⟩)) ∧
    alignLoopStarts loopA loopB =
      loopB.drop (findClosestVertexIndex loopA loopB) ++
        loopB.take (findClosestVertexIndex loopA loopB) ∧
    (alignLoopStarts loopA loopB).getD 0 ⟨0, 0⟩ =
      loopB.getD (findClosestVertexIndex loopA loopB) ⟨0, 0⟩ := by
  have hspec := closestAux_spec (loopA.getD 0 ⟨0, 0⟩) loopB [] 0 ⊤
    (Or.inl ⟨rfl, rfl, rfl⟩)
  simp only [List.nil_append, List.length_nil] at hspec
  rcases hspec with ⟨hnil, _⟩ | ⟨h1, h2, h3⟩
  · exact absurd hnil hB
  · have hidx : findClosestVertexIndex loopA loopB =
        closestAux (loopA.getD 0 ⟨0, 0⟩) loopB 0 0 ⊤ := rfl
    rw [← hidx] at h1 h2 h3
    have halign : alignLoopStarts loopA loopB =
        loopB.drop (findClosestVertexIndex loopA loopB) ++
          loopB.take (findClosestVertexIndex loopA loopB) := by
      rw [alignLoopStarts, rotateArray]
      split
      · next hcase =>
        rcases hcase with hzero | hlen
        · rw [hzero]; simp
        · exact absurd (List.length_eq_zero.mp hlen) hB
      · rfl
    refine ⟨h1, h2, h3, halign, ?_⟩
    rw [halign]
    have hdroplen : 0 <
        (loopB.drop (findClosestVertexIndex loopA loopB)).length := by
      rw [List.length_drop]; omega
    rw [List.getD_append _ _ _ _ hdroplen]
    rw [List.getD_eq_getElem _ _ hdroplen, List.getElem_drop,
      List.getD_eq_getElem _ _ (by omega)]
    simp

/-! ### Concrete evaluations on the 3-4-5 triangle -/

theorem tri_ccw : ensureWindingCCW tri = tri := by
  unfold ensureWindingCCW
  rw [if_neg (by norm_num [tri]), if_neg ?hsl]
  case hsl =>
    simp only [tri, shoelace, List.length_cons, List.length_nil,
      Finset.sum_range_succ, Finset.sum_range_zero, List.getD]
    norm_num

theorem tri_closest : findClosestVertexIndex tri tri = 0 := by
  have h1 : ¬((distanceTo ⟨0, 0⟩ ⟨3, 0⟩ : WithTop ℝ) <
      (distanceTo (⟨0, 0⟩ : Vec2) ⟨0, 0⟩ : WithTop ℝ)) := by
    rw [distanceTo_self]
    intro hc
    exact absurd (WithTop.coe_lt_coe.mp hc)
      (not_lt.mpr (distanceTo_nonneg _ _))
  have h2 : ¬((distanceTo ⟨0, 0⟩ ⟨0, 4⟩ : WithTop ℝ) <
      (distanceTo (⟨0, 0⟩ : Vec2) ⟨0, 0⟩ : WithTop ℝ)) := by
    rw [distanceTo_self]
    intro hc
    exact absurd (WithTop.coe_lt_coe.mp hc)
      (not_lt.mpr (distanceTo_nonneg _ _))
  show closestAux (tri.getD 0 ⟨0, 0⟩) tri 0 0 ⊤ = 0
  rw [show tri.getD 0 ⟨0, 0⟩ = ⟨0, 0⟩ from rfl]
  show closestAux ⟨0, 0⟩ [⟨0, 0⟩, ⟨3, 0⟩, ⟨0, 4⟩] 0 0 ⊤ = 0
  rw [closestAux, if_pos (WithTop.coe_lt_top _)]
  rw [closestAux, if_neg h1]
  rw [closestAux, if_neg h2]
  rw [closestAux]

theorem tri_align : alignLoopStarts tri tri = tri := by
  rw [alignLoopStarts, tri_closest, rotateArray, if_pos (Or.inl rfl)]

theorem triP_count : (ParameterizedLoop.ofVertices tri).count = 3 := by
  rw [ParameterizedLoop.ofVertices_count]
  rfl

theorem triP_vertex0 : (ParameterizedLoop.ofVertices tri).vertex 0 = ⟨0, 0⟩ := by
  rw [ParameterizedLoop.vertex, triP_count]
  show (ensureWindingCCW tri).getD (0 % 3) ⟨0, 0⟩ = _
  rw [tri_ccw]
  rfl

theorem triP_vertex1 : (ParameterizedLoop.ofVertices tri).vertex 1 = ⟨3, 0⟩ := by
  rw [ParameterizedLoop.vertex, triP_count]
  show (ensureWindingCCW tri).getD (1 % 3) ⟨0, 0⟩ = _
  rw [tri_ccw]
  rfl

theorem triP_vertex2 : (ParameterizedLoop.ofVertices tri).vertex 2 = ⟨0, 4⟩ := by
  rw [ParameterizedLoop.vertex, triP_count]
  show (ensureWindingCCW tri).getD (2 % 3) ⟨0, 0⟩ = _
  rw [tri_ccw]
  rfl

theorem triP_vertex3 : (ParameterizedLoop.ofVertices tri).vertex 3 = ⟨0, 0⟩ := by
  rw [ParameterizedLoop.vertex, triP_count]
  show (ensureWindingCCW tri).getD (3 % 3) ⟨0, 0⟩ = _
  rw [tri_ccw]
  rfl

theorem ParameterizedLoop.vertex_eq_of_mem (L : ParameterizedLoop)
    (v : Vec2) (hv : v ∈ L.vertices) :
    ∃ k, k < L.count ∧ L.vertex k = v := by
  obtain ⟨k, hk, hkv⟩ := List.mem_iff_getElem.mp hv
  refine ⟨k, hk, ?_⟩
  show L.vertices.getD (k % L.vertices.length) ⟨0, 0⟩ = v
  rw [Nat.mod_eq_of_lt hk, List.getD_eq_getElem _ _ hk, hkv]

/-! ### Claim theorems: exact corners (C2) -/

/-- C2 (amended): every original vertex of loop A and of loop B
appears as an exact (non-interpolated) corner in AT LEAST one output
face (corners are shared between consecutive faces, so a vertex can
appear in more than one face); in every face the `a0` corner is an
original vertex of loop A and the `b0` corner is an original vertex of
loop B, and at least one of the advancing corners `a1`, `b1` is an
original vertex of its loop — no face has interpolated corners on both
loops. -/
theorem perimeterWalk_exact_corners (loopA : List Vec2) (hA : ℝ)
    (loopB : List Vec2) (hB : ℝ)
    (h3A : 3 ≤ loopA.length) (h3B : 3 ≤ loopB.length) :
    (∀ v ∈ loopA, ∃ f ∈ (perimeterWalkAlgorithm loopA hA loopB hB).faces,
      (⟨v.x, v.y, hA⟩ : Vec3) ∈ f.vertices) ∧
    (∀ v ∈ loopB, ∃ f ∈ (perimeterWalkAlgorithm loopA hA loopB hB).faces,
      (⟨v.x, v.y, hB⟩ : Vec3) ∈ f.vertices) ∧
    (∀ f ∈ (perimeterWalkAlgorithm loopA hA loopB hB).faces,
      ∃ a0 a1 b0 b1 : Vec2, a0 ∈ loopA ∧ b0 ∈ loopB ∧
        (a1 ∈ loopA ∨ b1 ∈ loopB) ∧
        f.vertices = [⟨a0.x, a0.y, hA⟩, ⟨a1.x, a1.y, hA⟩,
          ⟨b1.x, b1.y, hB⟩, ⟨b0.x, b0.y, hB⟩]) := by
  rw [perimeterWalkAlgorithm_faces hA hB h3A h3B]
  refine ⟨?_, ?_, ?_⟩
  · intro v hv
    have hv' : v ∈ (ParameterizedLoop.ofVertices
        (ensureWindingCCW loopA)).vertices := by
      simpa using hv
    obtain ⟨k, hk, hkv⟩ := (ParameterizedLoop.ofVertices
      (ensureWindingCCW loopA)).vertex_eq_of_mem v hv'
    have hcov := walkAux_coversA
      (ParameterizedLoop.ofVertices (ensureWindingCCW loopA))
      (ParameterizedLoop.ofVertices
        (alignLoopStarts (ensureWindingCCW loopA) (ensureWindingCCW loopB)))
      0 0 ⟨hA, hB, []⟩ k (Nat.zero_le k) hk
    rw [hkv] at hcov
    exact hcov
  · intro v hv
    have hv' : v ∈ (ParameterizedLoop.ofVertices
        (alignLoopStarts (ensureWindingCCW loopA)
          (ensureWindingCCW loopB))).vertices := by
      simpa using hv
    obtain ⟨k, hk, hkv⟩ := (ParameterizedLoop.ofVertices
      (alignLoopStarts (ensureWindingCCW loopA)
        (ensureWindingCCW loopB))).vertex_eq_of_mem v hv'
    have hcov := walkAux_coversB
      (ParameterizedLoop.ofVertices (ensureWindingCCW loopA))
      (ParameterizedLoop.ofVertices
        (alignLoopStarts (ensureWindingCCW loopA) (ensureWindingCCW loopB)))
      0 0 ⟨hA, hB, []⟩ k (Nat.zero_le k) hk
    rw [hkv] at hcov
    exact hcov
  · intro f hf
    have hshape := walkAux_faces_shape
      (ParameterizedLoop.ofVertices (ensureWindingCCW loopA))
      (ParameterizedLoop.ofVertices
        (alignLoopStarts (ensureWindingCCW loopA) (ensureWindingCCW loopB)))
      (by simp; omega) (by simp; omega) 0 0 ⟨hA, hB, []⟩ f hf
    rcases hshape with hnil | ⟨a0, a1, b0, b1, m1, m2, m3, hv⟩
    · exact absurd hnil (List.not_mem_nil f)
    · refine ⟨a0, a1, b0, b1, by simpa using m1, by simpa using m2, ?_, hv⟩
      rcases m3 with m3 | m3
      · exact Or.inl (by simpa using m3)
      · exact Or.inr (by simpa using m3)

theorem perimeterWalk_exact_corners_witness :
    3 ≤ tri.length ∧
    ∀ v ∈ tri, ∃ f ∈ (perimeterWalkAlgorithm tri 0 tri 1).faces,
      (⟨v.x, v.y, (0 : ℝ)⟩ : Vec3) ∈ f.vertices :=
  ⟨by simp [tri],
    (perimeterWalk_exact_corners tri 0 tri 1
      (by simp [tri]) (by simp [tri])).1⟩

/-- Full evaluation of the walk on two copies of the 3-4-5 triangle at
heights 0 and 1: three tie steps, three quads. -/
theorem tri_walk_faces :
    (perimeterWalkAlgorithm tri 0 tri 1).faces =
      [⟨[⟨0, 0, 0⟩, ⟨3, 0, 0⟩, ⟨3, 0, 1⟩, ⟨0, 0, 1⟩]⟩,
       ⟨[⟨3, 0, 0⟩, ⟨0, 4, 0⟩, ⟨0, 4, 1⟩, ⟨3, 0, 1⟩]⟩,
       ⟨[⟨0, 4, 0⟩, ⟨0, 0, 0⟩, ⟨0, 0, 1⟩, ⟨0, 4, 1⟩]⟩] := by
  have h3 : 3 ≤ tri.length := by simp [tri]
  have h0c : (0 : ℕ) < (ParameterizedLoop.ofVertices tri).count := by
    rw [triP_count]; omega
  have h1c : (1 : ℕ) < (ParameterizedLoop.ofVertices tri).count := by
    rw [triP_count]; omega
  have h2c : (2 : ℕ) < (ParameterizedLoop.ofVertices tri).count := by
    rw [triP_count]; omega
  have htie : ∀ i : ℕ,
      |(ParameterizedLoop.ofVertices tri).param i -
        (ParameterizedLoop.ofVertices tri).param i| < EPS := by
    intro i
    rw [sub_self, abs_zero]
    unfold EPS
    norm_num
  rw [perimeterWalkAlgorithm_faces 0 1 h3 h3, tri_ccw, tri_align]
  rw [walkAux_stepTie _ h0c h0c (htie (0 + 1))]
  rw [walkAux_stepTie _ h1c h1c (htie (1 + 1))]
  rw [walkAux_stepTie _ h2c h2c (htie (2 + 1))]
  rw [walkAux_done (by rw [triP_count]; omega)]
  rw [triP_vertex0, triP_vertex1, triP_vertex2, triP_vertex3]
  simp only [FaceBuilder.addQuad_faces, FaceBuilder.addQuad_heightA,
    FaceBuilder.addQuad_heightB, List.nil_append, List.append_assoc,
    List.cons_append, List.nil_append]

/-- Refutation of C2 as stated ("appears as an exact corner in exactly
one output face"): for two copies of the 3-4-5 triangle at heights 0
and 1, vertex `(0, 0)` of loop A appears as an exact corner of both
face 0 (as its `a0` corner) and face 2 (as its `a1` corner). -/
theorem perimeterWalk_exact_corners_cex :
    ¬((∀ v ∈ tri, ∃! i : ℕ,
        i < (perimeterWalkAlgorithm tri 0 tri 1).faces.length ∧
        (⟨v.x, v.y, (0 : ℝ)⟩ : Vec3) ∈
          ((perimeterWalkAlgorithm tri 0 tri 1).faces.getD i
            ⟨[]⟩).vertices) ∧
      (∀ v ∈ tri, ∃! i : ℕ,
        i < (perimeterWalkAlgorithm tri 0 tri 1).faces.length ∧
        (⟨v.x, v.y, (1 : ℝ)⟩ : Vec3) ∈
          ((perimeterWalkAlgorithm tri 0 tri 1).faces.getD i
            ⟨[]⟩).vertices)) := by
  rintro ⟨hclaim, -⟩
  obtain ⟨i, hi, huniq⟩ := hclaim ⟨0, 0⟩ (by simp [tri])
  have h0 : (0 : ℕ) = i := by
    refine huniq 0 ⟨?_, ?_⟩
    · rw [tri_walk_faces]; norm_num
    · rw [tri_walk_faces]; simp
  have h2 : (2 : ℕ) = i := by
    refine huniq 2 ⟨?_, ?_⟩
    · rw [tri_walk_faces]; norm_num
    · rw [tri_walk_faces]; simp
  omega

/-! ### Claim theorems: the A-exhausted transition rule (C3) -/

/-- C3 (amended): in the walk, when loop A is exhausted (`iA ≥ nA`,
hence `iA = nA`) and loop B may still advance, the emitted quad uses
A's wrap-around current vertex `vertex(iA) = vertices[iA mod nA]` —
A's FIRST vertex, not its last — as the `a0` corner, and an
interpolated point held on A's final edge (edge `nA - 1`, from A's last
vertex back to its first) evaluated at B's next parameter as the `a1`
corner, together with B's current and next vertex; then `iB` is
incremented. -/
theorem walk_stepAExhausted_behavior (loopA loopB : ParameterizedLoop)
    (iA iB : ℕ) (b : FaceBuilder)
    (hA : iA ≥ loopA.count) (hB : iB < loopB.count) :
    walkAux loopA loopB iA iB b =
      walkAux loopA loopB iA (iB + 1)
        (b.addQuad (loopA.vertex iA)
          (loopA.interpolate (loopA.count - 1) (loopB.param (iB + 1)))
          (loopB.vertex iB) (loopB.vertex (iB + 1))) ∧
    loopA.vertex iA = loopA.vertices.getD (iA % loopA.count) ⟨0, 0⟩ :=
  ⟨walkAux_stepAExhausted b hB hA, rfl⟩

theorem walk_stepAExhausted_behavior_witness :
    (3 ≥ (ParameterizedLoop.mk [⟨0, 0⟩, ⟨3, 0⟩, ⟨0, 4⟩]
        [0, 1/4, 2/3] 12).count ∧
      0 < (ParameterizedLoop.mk [⟨5, 5⟩, ⟨6, 5⟩, ⟨5, 6⟩]
        [0, 1/3, 2/3] 3).count) ∧
    walkAux (ParameterizedLoop.mk [⟨0, 0⟩, ⟨3, 0⟩, ⟨0, 4⟩] [0, 1/4, 2/3] 12)
        (ParameterizedLoop.mk [⟨5, 5⟩, ⟨6, 5⟩, ⟨5, 6⟩] [0, 1/3, 2/3] 3)
        3 0 ⟨0, 1, []⟩ =
      walkAux (ParameterizedLoop.mk [⟨0, 0⟩, ⟨3, 0⟩, ⟨0, 4⟩] [0, 1/4, 2/3] 12)
        (ParameterizedLoop.mk [⟨5, 5⟩, ⟨6, 5⟩, ⟨5, 6⟩] [0, 1/3, 2/3] 3)
        3 1
        (FaceBuilder.addQuad ⟨0, 1, []⟩
          ((ParameterizedLoop.mk [⟨0, 0⟩, ⟨3, 0⟩, ⟨0, 4⟩]
            [0, 1/4, 2/3] 12).vertex 3)
          ((ParameterizedLoop.mk [⟨0, 0⟩, ⟨3, 0⟩, ⟨0, 4⟩]
            [0, 1/4, 2/3] 12).interpolate
            ((ParameterizedLoop.mk [⟨0, 0⟩, ⟨3, 0⟩, ⟨0, 4⟩]
              [0, 1/4, 2/3] 12).count - 1)
            ((ParameterizedLoop.mk [⟨5, 5⟩, ⟨6, 5⟩, ⟨5, 6⟩]
              [0, 1/3, 2/3] 3).param (0 + 1)))
          ((ParameterizedLoop.mk [⟨5, 5⟩, ⟨6, 5⟩, ⟨5, 6⟩]
            [0, 1/3, 2/3] 3).vertex 0)
          ((ParameterizedLoop.mk [⟨5, 5⟩, ⟨6, 5⟩, ⟨5, 6⟩]
            [0, 1/3, 2/3] 3).vertex (0 + 1))) :=
  ⟨⟨by decide, by decide⟩,
    (walk_stepAExhausted_behavior _ _ 3 0 ⟨0, 1, []⟩
      (by decide) (by decide)).1⟩

/-- Refutation of C3 as stated: at an A-exhausted state of the walk
over the 3-4-5 triangle (`iA = nA = 3`), the emitted quad's `a0`
corner is the lift of A's FIRST vertex `(0, 0)`, while A's last vertex
is `(0, 4)` — the quad does not use A's last vertex as its `a0`
corner. -/
theorem walk_stepAExhausted_cex :
    (((walkAux (ParameterizedLoop.ofVertices tri)
        (ParameterizedLoop.ofVertices tri) 3 0
        ⟨0, 1, []⟩).faces.getD 0 ⟨[]⟩).vertices.getD 0 ⟨0, 0, 0⟩ =
      (⟨0, 0, 0⟩ : Vec3)) ∧
    ((ParameterizedLoop.ofVertices tri).vertices.getD
        ((ParameterizedLoop.ofVertices tri).count - 1) ⟨0, 0⟩ =
      (⟨0, 4⟩ : Vec2)) ∧
    (⟨0, 0, 0⟩ : Vec3) ≠ (⟨(0 : ℝ), 4, 0⟩ : Vec3) := by
  refine ⟨?_, ?_, ?_⟩
  · rw [walkAux_stepAExhausted ⟨0, 1, []⟩
      (by rw [triP_count]; omega) (by rw [triP_count])]
    obtain ⟨t, ht⟩ := walkAux_faces_append (ParameterizedLoop.ofVertices tri)
      (ParameterizedLoop.ofVertices tri) 3 1 _
    rw [ht]
    rw [FaceBuilder.addQuad_faces]
    simp only [List.nil_append]
    rw [List.getD_append _ _ _ _ (by norm_num), List.getD_cons_zero]
    simp only [List.getD_cons_zero]
    rw [triP_vertex3]
  · rw [triP_count]
    show (ensureWindingCCW tri).getD 2 ⟨0, 0⟩ = _
    rw [tri_ccw]
    rfl
  · intro hc
    have := congrArg Vec3.y hc
    norm_num at this

/-! ### The orchestrator (C8, C9) -/

namespace LoftableModel

theorem heightLE_trans : ∀ a b c : SketchPlane,
    heightLE a b → heightLE b c → heightLE a c := by
  intro a b c hab hbc
  simp only [heightLE, decide_eq_true_eq] at *
  exact le_trans hab hbc

theorem heightLE_total : ∀ a b : SketchPlane,
    heightLE a b || heightLE b a := by
  intro a b
  simp only [heightLE, Bool.or_eq_true, decide_eq_true_eq]
  exact le_total _ _

/-- Stability of the merge sort: any filter that selects a set of
pairwise-`le` elements (such as all planes of one height) is untouched
by sorting. -/
theorem mergeSort_filter_stable {α : Type} (le : α → α → Bool)
    (htrans : ∀ a b c, le a b → le b c → le a c)
    (htotal : ∀ a b, le a b || le b a)
    (l : List α) (p : α → Bool) (hp : ∀ a b, p a → p b → le a b) :
    (l.mergeSort le).filter p = l.filter p := by
  have hpw : (l.filter p).Pairwise (fun a b => le a b) := by
    refine List.pairwise_of_forall_mem_list ?_
    intro a ha b hb
    exact hp a b (List.of_mem_filter ha) (List.of_mem_filter hb)
  have h1 : List.Sublist (l.filter p) (l.mergeSort le) :=
    List.sublist_mergeSort htrans htotal hpw (List.filter_sublist l)
  have h2 := h1.filter p
  rw [List.filter_filter] at h2
  simp only [Bool.and_self] at h2
  have h3 : List.Perm ((l.mergeSort le).filter p) (l.filter p) :=
    (List.mergeSort_perm l le).filter p
  exact (h2.eq_of_length h3.length_eq.symm).symm

@[simp] theorem sortPlanes_length (planes : List SketchPlane) :
    (sortPlanes planes).length = planes.length := by
  rw [sortPlanes, List.length_mergeSort]

theorem buildSegments_length (planes : List SketchPlane)
    (alg : LoftAlgorithm) :
    (buildSegments planes alg).segments.length = planes.length - 1 := by
  simp [buildSegments]

theorem buildSegments_getD (planes : List SketchPlane)
    (alg : LoftAlgorithm) (i : ℕ) (hi : i < planes.length - 1) :
    ((buildSegments planes alg).segments.getD i
        ⟨⟨[], 0⟩, ⟨[], 0⟩, []⟩).bottomPlane = planes.getD i ⟨[], 0⟩ ∧
    ((buildSegments planes alg).segments.getD i
        ⟨⟨[], 0⟩, ⟨[], 0⟩, []⟩).topPlane = planes.getD (i + 1) ⟨[], 0⟩ := by
  constructor <;>
  · rw [List.getD_eq_getElem _ _ (by rw [buildSegments_length]; exact hi)]
    simp only [buildSegments, List.getElem_map, List.getElem_range]

theorem sortPlanes_pairwise (planes : List SketchPlane) :
    (sortPlanes planes).Pairwise (fun a b => a.height ≤ b.height) := by
  have h := List.sorted_mergeSort heightLE_trans heightLE_total planes
  rw [← sortPlanes] at h
  exact h.imp fun hab => by
    simpa only [heightLE, decide_eq_true_eq] using hab

theorem sortPlanes_perm (planes : List SketchPlane) :
    List.Perm (sortPlanes planes) planes :=
  List.mergeSort_perm planes heightLE

theorem sortPlanes_stable (planes : List SketchPlane) (h0 : ℝ) :
    (sortPlanes planes).filter (fun q => decide (q.height = h0)) =
      planes.filter (fun q => decide (q.height = h0)) := by
  refine mergeSort_filter_stable heightLE heightLE_trans heightLE_total
    planes _ ?_
  intro a b ha hb
  simp only [decide_eq_true_eq] at ha hb
  simp only [heightLE, decide_eq_true_eq]
  rw [ha, hb]

/-- Case analysis of `fromPlanes` in the `planes.length ≥ 2` case: the
model that comes back is always `buildSegments` of the sorted planes
with the resolved algorithm. -/
theorem fromPlanes_ok_model (reg : Registry) (dflt : Option String)
    (planes : List SketchPlane) (algorithmName : Option String)
    (w : List String) (m : LoftableModel)
    (hlen : ¬planes.length < 2)
    (h : fromPlanes reg dflt planes algorithmName = .ok (w, m)) :
    ∃ alg, m = buildSegments (sortPlanes planes) alg := by
  rw [fromPlanes, if_neg hlen] at h
  simp only [] at h
  rcases hreg : reg (algorithmName.getD (dflt.getD "perimeter-walk")) with
    _ | alg
  · rw [hreg] at h
    rcases hreg2 : reg "perimeter-walk" with _ | fb
    · rw [hreg2] at h
      exact absurd h (by simp)
    · rw [hreg2] at h
      simp only [Except.ok.injEq, Prod.mk.injEq] at h
      exact ⟨fb, h.2.symm⟩
  · rw [hreg] at h
    simp only [Except.ok.injEq, Prod.mk.injEq] at h
    exact ⟨alg, h.2.symm⟩

end LoftableModel

/-- C8: for every input sequence of N planes, the model built by
`fromPlanes` has exactly N−1 segments when N ≥ 2, with segments pairing
consecutive entries of the height-sorted plane list (ascending heights;
planes of equal height keep their original relative order, the sort
being stable), and zero segments when N < 2. -/
theorem fromPlanes_segment_structure (reg : Registry)
    (dflt : Option String) (planes : List SketchPlane)
    (algorithmName : Option String) (w : List String) (m : LoftableModel)
    (h : LoftableModel.fromPlanes reg dflt planes algorithmName =
      .ok (w, m)) :
    (planes.length < 2 → m.segments = []) ∧
    (2 ≤ planes.length →
      m.segments.length = planes.length - 1 ∧
      (∀ i, i < planes.length - 1 →
        (m.segments.getD i ⟨⟨[], 0⟩, ⟨[], 0⟩, []⟩).bottomPlane =
          (LoftableModel.sortPlanes planes).getD i ⟨[], 0⟩ ∧
        (m.segments.getD i ⟨⟨[], 0⟩, ⟨[], 0⟩, []⟩).topPlane =
          (LoftableModel.sortPlanes planes).getD (i + 1) ⟨[], 0⟩) ∧
      (LoftableModel.sortPlanes planes).Pairwise
        (fun a b => a.height ≤ b.height) ∧
      List.Perm (LoftableModel.sortPlanes planes) planes ∧
      (∀ h0 : ℝ, (LoftableModel.sortPlanes planes).filter
          (fun q => decide (q.height = h0)) =
        planes.filter (fun q => decide (q.height = h0)))) := by
  by_cases hlen : planes.length < 2
  · rw [LoftableModel.fromPlanes, if_pos hlen] at h
    simp only [Except.ok.injEq, Prod.mk.injEq] at h
    refine ⟨fun _ => ?_, fun h2 => absurd h2 (by omega)⟩
    rw [← h.2]
  · obtain ⟨alg, halg⟩ := LoftableModel.fromPlanes_ok_model reg dflt planes
      algorithmName w m hlen h
    subst halg
    refine ⟨fun hc => absurd hc hlen, fun _ => ?_⟩
    refine ⟨?_, ?_, LoftableModel.sortPlanes_pairwise planes,
      LoftableModel.sortPlanes_perm planes,
      LoftableModel.sortPlanes_stable planes⟩
    · rw [LoftableModel.buildSegments_length, LoftableModel.sortPlanes_length]
    · intro i hi
      exact LoftableModel.buildSegments_getD _ alg i
        (by rw [LoftableModel.sortPlanes_length]; exact hi)

theorem fromPlanes_segment_structure_witness :
    LoftableModel.fromPlanes (fun _ => none) none [] none =
      Except.ok ([], (⟨[]⟩ : LoftableModel)) ∧
    ([] : List SketchPlane).length < 2 ∧
    (⟨[]⟩ : LoftableModel).segments = [] :=
  ⟨rfl, by norm_num,
    (fromPlanes_segment_structure (fun _ => none) none [] none []
      ⟨[]⟩ rfl).1 (by norm_num)⟩

/-- C9: `fromPlanes` resolves the algorithm as: the explicit name
argument, else the configured default, else the hardcoded literal
default name `perimeter-walk`; an unknown resolved name emits a warning
and falls back to the hardcoded default; and if the hardcoded default
itself is unregistered the build fails with an explicit error and
returns no partial model. -/
theorem fromPlanes_algorithm_resolution (reg : Registry)
    (dflt : Option String) (planes : List SketchPlane)
    (algorithmName : Option String) (h2 : 2 ≤ planes.length) :
    (∀ alg, reg (algorithmName.getD (dflt.getD "perimeter-walk")) =
        some alg →
      LoftableModel.fromPlanes reg dflt planes algorithmName =
        .ok ([], LoftableModel.buildSegments
          (LoftableModel.sortPlanes planes) alg)) ∧
    (reg (algorithmName.getD (dflt.getD "perimeter-walk")) = none →
      ∀ fb, reg "perimeter-walk" = some fb →
        LoftableModel.fromPlanes reg dflt planes algorithmName =
          .ok (["Unknown loft algorithm: " ++
              algorithmName.getD (dflt.getD "perimeter-walk") ++
              ", using perimeter-walk"],
            LoftableModel.buildSegments
              (LoftableModel.sortPlanes planes) fb)) ∧
    (reg (algorithmName.getD (dflt.getD "perimeter-walk")) = none →
      reg "perimeter-walk" = none →
      LoftableModel.fromPlanes reg dflt planes algorithmName =
        .error "No loft algorithms registered") := by
  refine ⟨?_, ?_, ?_⟩
  · intro alg halg
    rw [LoftableModel.fromPlanes, if_neg (by omega)]
    simp only []
    rw [halg]
  · intro hnone fb hfb
    rw [LoftableModel.fromPlanes, if_neg (by omega)]
    simp only []
    rw [hnone, hfb]
  · intro hnone hnone2
    rw [LoftableModel.fromPlanes, if_neg (by omega)]
    simp only []
    rw [hnone, hnone2]

theorem fromPlanes_algorithm_resolution_witness :
    2 ≤ ([⟨[], 0⟩, ⟨[], 1⟩] : List SketchPlane).length ∧
    LoftableModel.fromPlanes (fun _ => none) none
        [⟨[], 0⟩, ⟨[], 1⟩] (some "bogus") =
      .error "No loft algorithms registered" :=
  ⟨by norm_num,
    (fromPlanes_algorithm_resolution (fun _ => none) none
      [⟨[], 0⟩, ⟨[], 1⟩] (some "bogus") (by norm_num)).2.2 rfl rfl⟩

theorem findClosestVertexIndex_spec_witness :
    ([⟨0, 0⟩, ⟨3, 0⟩, ⟨0, 4⟩] : List Vec2) ≠ [] ∧
    (findClosestVertexIndex [⟨0, 0⟩, ⟨3, 0⟩, ⟨0, 4⟩]
        [⟨0, 0⟩, ⟨3, 0⟩, ⟨0, 4⟩] <
      ([⟨0, 0⟩, ⟨3, 0⟩, ⟨0, 4⟩] : List Vec2).length ∧
    alignLoopStarts [⟨0, 0⟩, ⟨3, 0⟩, ⟨0, 4⟩] [⟨0, 0⟩, ⟨3, 0⟩, ⟨0, 4⟩] =
      ([⟨0, 0⟩, ⟨3, 0⟩, ⟨0, 4⟩] : List Vec2).drop
          (findClosestVertexIndex [⟨0, 0⟩, ⟨3, 0⟩, ⟨0, 4⟩]
            [⟨0, 0⟩, ⟨3, 0⟩, ⟨0, 4⟩]) ++
        ([⟨0, 0⟩, ⟨3, 0⟩, ⟨0, 4⟩] : List Vec2).take
          (findClosestVertexIndex [⟨0, 0⟩, ⟨3, 0⟩, ⟨0, 4⟩]
            [⟨0, 0⟩, ⟨3, 0⟩, ⟨0, 4⟩])) :=
  ⟨by simp,
    ⟨(findClosestVertexIndex_spec _ _ (by simp) (by simp)).1,
      (findClosestVertexIndex_spec _ _ (by simp) (by simp)).2.2.2.1⟩⟩

end Loft
